import Mathlib

/-!
Shallow embedding of the request-intake service's three core components:
the admission-control rate limiter (`internal/middleware/ratelimit.go`),
the session store (`internal/web/session.go`) and the resilient database
writer (`internal/database/database.go`: `LogRequest`, `executeWithRetry`,
`isRetryableError`, `sanitizeInput`).

Conventions: wall-clock instants and token levels are rationals (the Go
code uses `time.Time` and `float64`); Go strings appear either as their
rune sequences (`List Nat` of unicode scalar values) or as `List Char`,
with UTF-8 byte sequences as `List Nat`; fallible operations return
`Option`.
-/

/-! ### Token bucket (rate limiting primitive) -/

/-- Modelled from the spec: the token bucket behind `rate.Limiter`
(`golang.org/x/time/rate` is an external dependency whose source is not in
the repository). Attributes per the spec data model: `capacity`,
`refillRate` (tokens per second), `tokens`, `lastRefill`. -/
structure TokenBucket where
  capacity : ℚ
  refillRate : ℚ
  tokens : ℚ
  lastRefill : ℚ
deriving Repr, DecidableEq

/-- Modelled from the spec: refill based on elapsed time since `lastRefill`,
`tokens = min(capacity, tokens + elapsed * refillRate)`. -/
def TokenBucket.refill (b : TokenBucket) (now : ℚ) : TokenBucket :=
  { b with
    tokens := min b.capacity (b.tokens + (now - b.lastRefill) * b.refillRate)
    lastRefill := now }

/-- Modelled from the spec: `tryAcquire()` refills, then if `tokens ≥ 1`
subtracts 1 and admits, otherwise rejects. This is `rate.Limiter.Allow`. -/
def TokenBucket.tryAcquire (b : TokenBucket) (now : ℚ) : Bool × TokenBucket :=
  let r := b.refill now
  if 1 ≤ r.tokens then (true, { r with tokens := r.tokens - 1 }) else (false, r)

/-- Modelled from the spec: `rate.NewLimiter(r, burst)` creates a bucket at
full capacity (`capacity = burst = tokens`). -/
def TokenBucket.mk0 (r : ℚ) (burst : ℕ) (now : ℚ) : TokenBucket :=
  { capacity := (burst : ℚ), refillRate := r, tokens := (burst : ℚ), lastRefill := now }

/-- The bucket invariant from the spec data model: `0 ≤ tokens ≤ capacity`. -/
def TokenBucket.Inv (b : TokenBucket) : Prop :=
  0 ≤ b.tokens ∧ b.tokens ≤ b.capacity

instance (b : TokenBucket) : Decidable b.Inv := by
  unfold TokenBucket.Inv; infer_instance

/-- A sequence of `tryAcquire` calls, each after a further nonnegative
elapsed time `d` (so the call instant is `lastRefill + d`). -/
def TokenBucket.run (b : TokenBucket) (ds : List ℚ) : TokenBucket :=
  match ds with
  | [] => b
  | d :: rest => ((b.tryAcquire (b.lastRefill + d)).2).run rest

/-! ### Limiter registry (`RateLimiter` of `ratelimit.go`) -/

/-- The `RateLimiter` struct of `ratelimit.go`: the per-IP limiter map
(an association list here), the per-IP rate and burst fixed at
construction, and the shared global limiter. -/
structure RateLimiter where
  perIP : List (String × TokenBucket)
  perIPRate : ℚ
  perIPBurst : ℕ
  global : TokenBucket

/-- Association-list lookup with decidable string equality, standing for a
Go map read. -/
def lookupBucket (m : List (String × TokenBucket)) (ip : String) : Option TokenBucket :=
  match m with
  | [] => none
  | (k, v) :: rest => if k = ip then some v else lookupBucket rest ip

/-- Insert-or-replace, standing for a Go map write (the Go code mutates
the shared `*rate.Limiter` in place; here the updated bucket is written
back under its key). -/
def setBucket (m : List (String × TokenBucket)) (ip : String) (b : TokenBucket) :
    List (String × TokenBucket) :=
  match m with
  | [] => [(ip, b)]
  | (k, v) :: rest => if k = ip then (ip, b) :: rest else (k, v) :: setBucket rest ip b

/-- `NewRateLimiter(perIPReqPerMin, globalReqPerMin)`: per-IP rate is
`perIPReqPerMin / 60` per second, per-IP burst is `perIPReqPerMin / 10`
(Go integer division), and the global limiter is created analogously from
`globalReqPerMin`; the map starts empty. `now` is the construction
instant. -/
def NewRateLimiter (perIPReqPerMin globalReqPerMin : ℕ) (now : ℚ) : RateLimiter :=
  { perIP := []
    perIPRate := (perIPReqPerMin : ℚ) / 60
    perIPBurst := perIPReqPerMin / 10
    global := TokenBucket.mk0 ((globalReqPerMin : ℚ) / 60) (globalReqPerMin / 10) now }

/-- `getLimiter(ip)`: look up the per-IP limiter, lazily creating one at
registry rate/burst if absent. Returns the limiter and the (possibly
extended) registry. -/
def RateLimiter.getLimiter (rl : RateLimiter) (ip : String) (now : ℚ) :
    TokenBucket × RateLimiter :=
  match lookupBucket rl.perIP ip with
  | some lim => (lim, rl)
  | none =>
      let lim := TokenBucket.mk0 rl.perIPRate rl.perIPBurst now
      (lim, { rl with perIP := setBucket rl.perIP ip lim })

/-- The admission decision of `Middleware()`: first `global.Allow()`; on
rejection return immediately (the per-IP map is not consulted); otherwise
look up or create the per-IP limiter and let its `Allow()` decide. -/
def RateLimiter.admitRequest (rl : RateLimiter) (ip : String) (now : ℚ) : Bool × RateLimiter :=
  let g := rl.global.tryAcquire now
  let rl1 : RateLimiter := { rl with global := g.2 }
  if g.1 then
    let gl := rl1.getLimiter ip now
    let a := gl.1.tryAcquire now
    (a.1, { gl.2 with perIP := setBucket gl.2.perIP ip a.2 })
  else
    (false, rl1)

/-! ### Token bucket helper lemmas -/

theorem TokenBucket.refill_capacity (b : TokenBucket) (now : ℚ) :
    (b.refill now).capacity = b.capacity := rfl

theorem TokenBucket.refill_rate (b : TokenBucket) (now : ℚ) :
    (b.refill now).refillRate = b.refillRate := rfl

theorem TokenBucket.tryAcquire_capacity (b : TokenBucket) (now : ℚ) :
    (b.tryAcquire now).2.capacity = b.capacity := by
  simp only [TokenBucket.tryAcquire]
  split <;> rfl

theorem TokenBucket.tryAcquire_rate (b : TokenBucket) (now : ℚ) :
    (b.tryAcquire now).2.refillRate = b.refillRate := by
  simp only [TokenBucket.tryAcquire]
  split <;> rfl

theorem TokenBucket.tryAcquire_lastRefill (b : TokenBucket) (now : ℚ) :
    (b.tryAcquire now).2.lastRefill = now := by
  simp only [TokenBucket.tryAcquire]
  split <;> rfl

/-- Refill never decreases the token level (given a nonnegative rate, a
level within capacity, and time moving forward). -/
theorem TokenBucket.refill_mono (b : TokenBucket) (now : ℚ)
    (hr : 0 ≤ b.refillRate) (hc : b.tokens ≤ b.capacity) (ht : b.lastRefill ≤ now) :
    b.tokens ≤ (b.refill now).tokens := by
  unfold TokenBucket.refill
  have h1 : 0 ≤ (now - b.lastRefill) * b.refillRate :=
    mul_nonneg (by linarith) hr
  simp only
  exact le_min hc (by linarith)

/-- Refill preserves the bucket invariant. -/
theorem TokenBucket.refill_inv (b : TokenBucket) (now : ℚ)
    (hr : 0 ≤ b.refillRate) (hinv : b.Inv) (ht : b.lastRefill ≤ now) :
    (b.refill now).Inv := by
  obtain ⟨h0, hc⟩ := hinv
  constructor
  · have h1 : 0 ≤ (now - b.lastRefill) * b.refillRate :=
      mul_nonneg (by linarith) hr
    have hcap : (0 : ℚ) ≤ b.capacity := le_trans h0 hc
    unfold TokenBucket.refill
    simp only
    exact le_min hcap (by linarith)
  · unfold TokenBucket.refill
    simp only [min_le_iff]
    left
    rfl

/-- `tryAcquire` preserves the bucket invariant. -/
theorem TokenBucket.tryAcquire_inv (b : TokenBucket) (now : ℚ)
    (hr : 0 ≤ b.refillRate) (hinv : b.Inv) (ht : b.lastRefill ≤ now) :
    (b.tryAcquire now).2.Inv := by
  have hri := b.refill_inv now hr hinv ht
  obtain ⟨h0, hc⟩ := hri
  simp only [TokenBucket.tryAcquire]
  split
  · rename_i hge
    refine ⟨?_, ?_⟩
    · show (0 : ℚ) ≤ (b.refill now).tokens - 1
      linarith
    · show (b.refill now).tokens - 1 ≤ (b.refill now).capacity
      linarith
  · exact ⟨h0, hc⟩

/-- Every state reached by a sequence of acquisitions separated by
nonnegative delays satisfies the invariant. -/
theorem TokenBucket.run_inv (b : TokenBucket) (ds : List ℚ)
    (hr : 0 ≤ b.refillRate) (hinv : b.Inv) (hd : ∀ d ∈ ds, 0 ≤ d) :
    (b.run ds).Inv := by
  induction ds generalizing b with
  | nil => exact hinv
  | cons d rest ih =>
      have hd0 : 0 ≤ d := hd d (List.mem_cons_self d rest)
      have hstep : (b.tryAcquire (b.lastRefill + d)).2.Inv :=
        b.tryAcquire_inv (b.lastRefill + d) hr hinv (by linarith)
      have hrate : 0 ≤ (b.tryAcquire (b.lastRefill + d)).2.refillRate := by
        rw [TokenBucket.tryAcquire_rate]; exact hr
      exact ih _ hrate hstep (fun e he => hd e (List.mem_cons_of_mem d he))

/-- Admission subtracts exactly one token from the refilled level. -/
theorem TokenBucket.tryAcquire_true_tokens (b : TokenBucket) (now : ℚ)
    (h : (b.tryAcquire now).1 = true) :
    1 ≤ (b.refill now).tokens ∧ (b.tryAcquire now).2.tokens = (b.refill now).tokens - 1 := by
  by_cases hge : 1 ≤ (b.refill now).tokens
  · refine ⟨hge, ?_⟩
    simp only [TokenBucket.tryAcquire, if_pos hge]
  · exfalso
    simp only [TokenBucket.tryAcquire, if_neg hge] at h
    exact absurd h (by simp)

/-- A rejected acquisition leaves the bucket in its merely-refilled state. -/
theorem TokenBucket.tryAcquire_false_eq (b : TokenBucket) (now : ℚ)
    (h : (b.tryAcquire now).1 = false) :
    (b.tryAcquire now).2 = b.refill now := by
  by_cases hge : 1 ≤ (b.refill now).tokens
  · exfalso
    simp only [TokenBucket.tryAcquire, if_pos hge] at h
    exact absurd h (by simp)
  · simp only [TokenBucket.tryAcquire, if_neg hge]

/-- A bucket with zero capacity rejects every acquisition: after refill the
level is at most `min 0 _ ≤ 0 < 1`. -/
theorem TokenBucket.capacity_zero_rejects (b : TokenBucket) (now : ℚ)
    (h : b.capacity = 0) :
    (b.tryAcquire now).1 = false := by
  have hle : (b.refill now).tokens ≤ 0 := by
    unfold TokenBucket.refill
    simp only [h]
    exact min_le_left 0 _
  simp only [TokenBucket.tryAcquire, if_neg (by linarith : ¬ (1 : ℚ) ≤ (b.refill now).tokens)]

/-- `getLimiter` never modifies the global bucket. -/
theorem RateLimiter.getLimiter_global (rl : RateLimiter) (ip : String) (now : ℚ) :
    (rl.getLimiter ip now).2.global = rl.global := by
  unfold RateLimiter.getLimiter
  split <;> rfl

/-- A claim theorem helper: the per-IP bucket a fresh registry hands out for
any key is created at registry burst capacity. -/
theorem RateLimiter.getLimiter_fresh (rl : RateLimiter) (ip : String) (now : ℚ)
    (h : lookupBucket rl.perIP ip = none) :
    (rl.getLimiter ip now).1 = TokenBucket.mk0 rl.perIPRate rl.perIPBurst now := by
  unfold RateLimiter.getLimiter
  rw [h]

/-- C7: for every token bucket and every sequence of `tryAcquire` calls
interleaved with arbitrary nonnegative elapsed time, `0 ≤ tokens ≤ capacity`
holds at every observable instant; refill computes
`min(capacity, tokens + elapsed * refillRate)` and never decreases the
level; an admission subtracts 1 exactly when the refilled level is ≥ 1,
and a rejection leaves the refilled state unchanged. -/
theorem tokenBucket_invariant_holds :
    (∀ (b : TokenBucket) (ds : List ℚ),
        0 ≤ b.refillRate → b.Inv → (∀ d ∈ ds, 0 ≤ d) → (b.run ds).Inv) ∧
    (∀ (b : TokenBucket) (now : ℚ),
        (b.refill now).tokens
          = min b.capacity (b.tokens + (now - b.lastRefill) * b.refillRate) ∧
        (0 ≤ b.refillRate → b.Inv → b.lastRefill ≤ now →
          b.tokens ≤ (b.refill now).tokens)) ∧
    (∀ (b : TokenBucket) (now : ℚ),
        ((b.tryAcquire now).1 = true →
          1 ≤ (b.refill now).tokens ∧
          (b.tryAcquire now).2.tokens = (b.refill now).tokens - 1) ∧
        ((b.tryAcquire now).1 = false → (b.tryAcquire now).2 = b.refill now)) := by
  refine ⟨fun b ds hr hinv hd => b.run_inv ds hr hinv hd, ?_, ?_⟩
  · intro b now
    exact ⟨rfl, fun hr hinv ht => b.refill_mono now hr hinv.2 ht⟩
  · intro b now
    exact ⟨b.tryAcquire_true_tokens now, b.tryAcquire_false_eq now⟩

/-- Witness for C7 at a concrete bucket (capacity 10, rate 1/6 per second,
full) and a concrete call sequence. -/
theorem tokenBucket_invariant_holds_witness :
    ((⟨10, 1/6, 10, 0⟩ : TokenBucket).run [0, 2, 3]).Inv :=
  tokenBucket_invariant_holds.1 ⟨10, 1/6, 10, 0⟩ [0, 2, 3]
    (by norm_num)
    (by constructor <;> norm_num)
    (by intro d hd; fin_cases hd <;> norm_num)

/-- C1: when the global bucket rejects, `admit` rejects overall and the
per-key map is left exactly as it was: no per-key bucket is created or
updated, so every per-key token count is unchanged (even if tokens were
available). -/
theorem globalReject_admit_frame (rl : RateLimiter) (ip : String) (now : ℚ)
    (h : (rl.global.tryAcquire now).1 = false) :
    (rl.admitRequest ip now).1 = false ∧ (rl.admitRequest ip now).2.perIP = rl.perIP := by
  simp only [RateLimiter.admitRequest, h]
  exact ⟨rfl, rfl⟩

/-- Witness for C1: a registry whose global bucket has burst
`5 / 10 = 0` rejects at the global stage; `admit` rejects and the (empty)
per-key map is untouched while per-IP burst is 10 (tokens available). -/
theorem globalReject_admit_frame_witness :
    ((NewRateLimiter 100 5 0).global.tryAcquire 0).1 = false ∧
    ((NewRateLimiter 100 5 0).admitRequest "10.0.0.1" 0).1 = false ∧
    ((NewRateLimiter 100 5 0).admitRequest "10.0.0.1" 0).2.perIP = (NewRateLimiter 100 5 0).perIP := by
  have h : ((NewRateLimiter 100 5 0).global.tryAcquire 0).1 = false := by
    norm_num [NewRateLimiter, TokenBucket.mk0, TokenBucket.tryAcquire, TokenBucket.refill]
  exact ⟨h, (globalReject_admit_frame (NewRateLimiter 100 5 0) "10.0.0.1" 0 h).1,
            (globalReject_admit_frame (NewRateLimiter 100 5 0) "10.0.0.1" 0 h).2⟩

/-- C8: when the global bucket admits but the per-key bucket rejects, the
request is rejected overall, yet the registry keeps the global bucket in its
post-acquisition state: its token count is the refilled level minus 1, i.e.
the global token consumed by a per-key-rejected request is not refunded. -/
theorem perKeyReject_keeps_global_consumed (rl : RateLimiter) (ip : String) (now : ℚ)
    (hg : (rl.global.tryAcquire now).1 = true)
    (hk : ((({ rl with global := (rl.global.tryAcquire now).2 } : RateLimiter).getLimiter
        ip now).1.tryAcquire now).1 = false) :
    (rl.admitRequest ip now).1 = false ∧
    (rl.admitRequest ip now).2.global = (rl.global.tryAcquire now).2 ∧
    (rl.admitRequest ip now).2.global.tokens = (rl.global.refill now).tokens - 1 := by
  have hgl := RateLimiter.getLimiter_global
    ({ rl with global := (rl.global.tryAcquire now).2 }) ip now
  have hcons := (TokenBucket.tryAcquire_true_tokens rl.global now hg).2
  simp only [RateLimiter.admitRequest, hg, if_true]
  refine ⟨hk, ?_, ?_⟩
  · exact hgl
  · rw [hgl]
    exact hcons

/-- Witness for C8: registry with per-IP burst `5 / 10 = 0` and global burst
`600 / 10 = 60`; the global bucket admits, the freshly created per-key
bucket (capacity 0) rejects, and the global level drops from 60 to 59. -/
theorem perKeyReject_keeps_global_consumed_witness :
    ((NewRateLimiter 5 600 0).global.tryAcquire 0).1 = true ∧
    ((NewRateLimiter 5 600 0).admitRequest "10.0.0.2" 0).1 = false ∧
    ((NewRateLimiter 5 600 0).admitRequest "10.0.0.2" 0).2.global.tokens
      = ((NewRateLimiter 5 600 0).global.refill 0).tokens - 1 := by
  have hg : ((NewRateLimiter 5 600 0).global.tryAcquire 0).1 = true := by
    norm_num [NewRateLimiter, TokenBucket.mk0, TokenBucket.tryAcquire, TokenBucket.refill]
  have hk : ((({ NewRateLimiter 5 600 0 with
      global := ((NewRateLimiter 5 600 0).global.tryAcquire 0).2 } : RateLimiter).getLimiter
      "10.0.0.2" 0).1.tryAcquire 0).1 = false := by
    norm_num [NewRateLimiter, TokenBucket.mk0, TokenBucket.tryAcquire, TokenBucket.refill,
      RateLimiter.getLimiter, lookupBucket]
  exact ⟨hg, (perKeyReject_keeps_global_consumed (NewRateLimiter 5 600 0) "10.0.0.2" 0 hg hk).1,
             (perKeyReject_keeps_global_consumed (NewRateLimiter 5 600 0) "10.0.0.2" 0 hg hk).2.2⟩

/-- C9: with `perIPReqPerMin < 10` the integer division `perIPReqPerMin / 10`
makes the per-key burst 0; every zero-capacity bucket rejects every
acquisition, and in particular the very first request after construction is
rejected at the per-key stage even when the global bucket admits it. -/
theorem lowPerIPRate_rejects_every_request (p g : ℕ) (ip : String) (t0 now : ℚ)
    (hp : p < 10)
    (hg : ((NewRateLimiter p g t0).global.tryAcquire now).1 = true) :
    (NewRateLimiter p g t0).perIPBurst = 0 ∧
    (∀ (b : TokenBucket) (t : ℚ), b.capacity = 0 → (b.tryAcquire t).1 = false) ∧
    ((NewRateLimiter p g t0).admitRequest ip now).1 = false := by
  have hburst : (NewRateLimiter p g t0).perIPBurst = 0 := Nat.div_eq_of_lt hp
  refine ⟨hburst, fun b t h => b.capacity_zero_rejects t h, ?_⟩
  have hfresh : ((({ NewRateLimiter p g t0 with
      global := ((NewRateLimiter p g t0).global.tryAcquire now).2 } : RateLimiter).getLimiter
      ip now).1) = TokenBucket.mk0 ((p : ℚ) / 60) (p / 10) now := by
    apply RateLimiter.getLimiter_fresh
    rfl
  have hk : ((({ NewRateLimiter p g t0 with
      global := ((NewRateLimiter p g t0).global.tryAcquire now).2 } : RateLimiter).getLimiter
      ip now).1.tryAcquire now).1 = false := by
    rw [hfresh]
    apply TokenBucket.capacity_zero_rejects
    show ((p / 10 : ℕ) : ℚ) = 0
    rw [Nat.div_eq_of_lt hp]
    norm_num
  simp only [RateLimiter.admitRequest, hg, if_true]
  exact hk

/-- Witness for C9: `perIPReqPerMin = 7 < 10`, global limit 1200 per minute;
the global bucket admits the first request but `admit` rejects it. -/
theorem lowPerIPRate_rejects_every_request_witness :
    7 < 10 ∧
    ((NewRateLimiter 7 1200 0).global.tryAcquire 0).1 = true ∧
    (NewRateLimiter 7 1200 0).perIPBurst = 0 ∧
    ((NewRateLimiter 7 1200 0).admitRequest "1.2.3.4" 0).1 = false := by
  have hg : ((NewRateLimiter 7 1200 0).global.tryAcquire 0).1 = true := by
    norm_num [NewRateLimiter, TokenBucket.mk0, TokenBucket.tryAcquire, TokenBucket.refill]
  exact ⟨by norm_num, hg,
    (lowPerIPRate_rejects_every_request 7 1200 "1.2.3.4" 0 0 (by norm_num) hg).1,
    (lowPerIPRate_rejects_every_request 7 1200 "1.2.3.4" 0 0 (by norm_num) hg).2.2⟩

/-! ### Session store (`internal/web/session.go`) -/

/-- The `Session` struct exactly as declared in `session.go`: a username
and an expiry instant, nothing else (in particular no CSRF token field). -/
structure Session where
  username : String
  expiresAt : ℚ
deriving Repr, DecidableEq

/-- The `SessionStore` struct: the `sync.Map` of sessions keyed by the hex
session ID (an association list here) and the timeout (TTL). -/
structure SessionStore where
  sessions : List (List Char × Session)
  timeout : ℚ
deriving Repr, DecidableEq

/-- Map read (`sync.Map.Load`). -/
def lookupSession (m : List (List Char × Session)) (k : List Char) : Option Session :=
  match m with
  | [] => none
  | (k0, v) :: rest => if k0 = k then some v else lookupSession rest k

/-- Map write (`sync.Map.Store`): insert or replace. -/
def storeSession (m : List (List Char × Session)) (k : List Char) (v : Session) :
    List (List Char × Session) :=
  match m with
  | [] => [(k, v)]
  | (k0, v0) :: rest => if k0 = k then (k, v) :: rest else (k0, v0) :: storeSession rest k v

/-- Map removal (`sync.Map.Delete`). -/
def deleteSession (m : List (List Char × Session)) (k : List Char) :
    List (List Char × Session) :=
  match m with
  | [] => []
  | (k0, v0) :: rest => if k0 = k then rest else (k0, v0) :: deleteSession rest k

/-- Lower-case hex digit, as produced by Go's `hex.EncodeToString`. -/
def hexDigitChar (n : ℕ) : Char :=
  if n < 10 then Char.ofNat (48 + n) else Char.ofNat (87 + n)

/-- Go's `hex.EncodeToString`: two hex digits per byte. -/
def hexEncode (bs : List ℕ) : List Char :=
  match bs with
  | [] => []
  | b :: rest => hexDigitChar (b / 16) :: hexDigitChar (b % 16) :: hexEncode rest

/-- `generateSessionID`: reads 32 random bytes (modelled as the `entropy`
argument; `none` is an entropy-source failure, which is surfaced) and hex
encodes them. -/
def generateSessionID (entropy : Option (List ℕ)) : Option (List Char) :=
  match entropy with
  | none => none
  | some bs => some (hexEncode bs)

/-- `Create(username)`: generate the session ID; on success store
`Session{Username, ExpiresAt: now + timeout}` under the ID and return the
ID (the sole token the code produces). -/
def SessionStore.create (s : SessionStore) (entropy : Option (List ℕ)) (username : String)
    (now : ℚ) : Option (List Char × SessionStore) :=
  match generateSessionID entropy with
  | none => none
  | some sid =>
      some (sid, { s with
        sessions := storeSession s.sessions sid ⟨username, now + s.timeout⟩ })

/-- `Get(sessionID)`: look up; absent means not-found; if
`time.Now().After(ExpiresAt)` (strictly `expiresAt < now`) delete the entry
and report not-found; otherwise return the record. -/
def SessionStore.get (s : SessionStore) (sid : List Char) (now : ℚ) :
    Option Session × SessionStore :=
  match lookupSession s.sessions sid with
  | none => (none, s)
  | some sess =>
      if sess.expiresAt < now then
        (none, { s with sessions := deleteSession s.sessions sid })
      else
        (some sess, s)

theorem hexEncode_length (bs : List ℕ) : (hexEncode bs).length = 2 * bs.length := by
  induction bs with
  | nil => rfl
  | cons b rest ih =>
      simp only [hexEncode, List.length_cons, ih]
      ring

/-- C2 evidence: `Create` produces exactly one token. On 32 bytes of
entropy it returns the 64-hex-character session key and the updated store,
whose record holds only the username and `expiresAt = now + timeout` — the
`Session` type of the code has no CSRF field, so no second (CSRF) token is
generated, stored or returned, although the repository's own
`session_test.go` reads `session.CSRFToken` and its security docs state
CSRF protection is implemented. -/
theorem create_returns_single_token_no_csrf :
    (⟨[], 100⟩ : SessionStore).create (some (List.replicate 32 0)) "alice" 7
      = some (hexEncode (List.replicate 32 0),
          ⟨[(hexEncode (List.replicate 32 0),
             ⟨"alice", 107⟩)], 100⟩) ∧
    (hexEncode (List.replicate 32 0)).length = 64 := by
  constructor
  · simp only [SessionStore.create, generateSessionID, storeSession]
    norm_num
  · rw [hexEncode_length, List.length_replicate]

/-- C3 counterexample: at the boundary instant `now = expiresAt` the code
returns the session as found (Go's `time.Now().After(expiresAt)` is a
strict comparison), whereas the claim requires deletion and not-found when
`expiresAt ≤ now`. -/
theorem get_at_boundary_returns_found :
    ((⟨[(['k'], ⟨"u", 5⟩)], 10⟩ : SessionStore).get ['k'] 5).1 = some ⟨"u", 5⟩ := by
  simp only [SessionStore.get, lookupSession, if_pos rfl]
  norm_num

/-- C3 (amended): `get` returns not-found when the key is absent; when the
key is present and `expiresAt < now` strictly, it deletes the entry and
returns not-found; when `now ≤ expiresAt` (including the boundary
`now = expiresAt`) it returns the stored record as found; a record with
`expiresAt < now` is never returned as valid. -/
theorem get_lazy_expiry_strict (s : SessionStore) (sid : List Char) (now : ℚ) :
    (lookupSession s.sessions sid = none → s.get sid now = (none, s)) ∧
    (∀ sess, lookupSession s.sessions sid = some sess → sess.expiresAt < now →
      s.get sid now = (none, { s with sessions := deleteSession s.sessions sid })) ∧
    (∀ sess, lookupSession s.sessions sid = some sess → now ≤ sess.expiresAt →
      s.get sid now = (some sess, s)) ∧
    (∀ sess s2, s.get sid now = (some sess, s2) → now ≤ sess.expiresAt) := by
  refine ⟨?_, ?_, ?_, ?_⟩
  · intro h
    simp only [SessionStore.get, h]
  · intro sess hl hexp
    simp only [SessionStore.get, hl, if_pos hexp]
  · intro sess hl hvalid
    simp only [SessionStore.get, hl, if_neg (not_lt.mpr hvalid)]
  · intro sess s2 h
    rcases hl : lookupSession s.sessions sid with _ | sess0
    · simp only [SessionStore.get, hl] at h
      exact absurd (congrArg Prod.fst h) (by simp)
    · simp only [SessionStore.get, hl] at h
      by_cases hexp : sess0.expiresAt < now
      · rw [if_pos hexp] at h
        simpa using congrArg Prod.fst h
      · rw [if_neg hexp] at h
        have : sess0 = sess := by simpa using congrArg Prod.fst h
        rw [← this]
        exact not_lt.mp hexp

/-- Witness for the amended C3 at a concrete store (one session for key
`k`, expiring at instant 5): absent key at time 3, lazy deletion at time 6,
and the boundary/valid case at time 5. -/
theorem get_lazy_expiry_strict_witness :
    ((⟨[(['k'], ⟨"u", 5⟩)], 10⟩ : SessionStore).get ['z'] 3
        = (none, ⟨[(['k'], ⟨"u", 5⟩)], 10⟩)) ∧
    ((⟨[(['k'], ⟨"u", 5⟩)], 10⟩ : SessionStore).get ['k'] 6
        = (none, ⟨deleteSession [(['k'], ⟨"u", 5⟩)] ['k'], 10⟩)) ∧
    ((⟨[(['k'], ⟨"u", 5⟩)], 10⟩ : SessionStore).get ['k'] 5
        = (some ⟨"u", 5⟩, ⟨[(['k'], ⟨"u", 5⟩)], 10⟩)) := by
  refine ⟨?_, ?_, ?_⟩
  · exact (get_lazy_expiry_strict ⟨[(['k'], ⟨"u", 5⟩)], 10⟩ ['z'] 3).1 (by decide)
  · exact (get_lazy_expiry_strict ⟨[(['k'], ⟨"u", 5⟩)], 10⟩ ['k'] 6).2.1 ⟨"u", 5⟩
      (by decide) (by norm_num)
  · exact (get_lazy_expiry_strict ⟨[(['k'], ⟨"u", 5⟩)], 10⟩ ['k'] 5).2.2.1 ⟨"u", 5⟩
      (by decide) (by norm_num)

/-! ### Resilient writer (`internal/database/database.go`) -/

/-- Go's `strings.Contains(s, sub)`: `sub` occurs contiguously in `s`. -/
def goStrContains (s sub : List Char) : Bool :=
  decide (sub <:+: s)

/-- The three transient-contention signatures checked by
`isRetryableError`. -/
def sigDatabaseLocked : List Char := "database is locked".toList

/-- Second signature of `isRetryableError` (note: the full phrase
`database table is locked`). -/
def sigDatabaseTableLocked : List Char := "database table is locked".toList

/-- Third signature of `isRetryableError`: the SQLite busy status code. -/
def sigBusy : List Char := "SQLITE_BUSY".toList

/-- `isRetryableError`: an error is transient when its message contains one
of the three contention signatures. (The `err == nil` guard of the Go code
is handled by the caller model, which only classifies actual errors.) -/
def isRetryableError (err : List Char) : Bool :=
  goStrContains err sigDatabaseLocked ||
  goStrContains err sigDatabaseTableLocked ||
  goStrContains err sigBusy

/-- Outcome of `executeWithRetry`: success, the wrapped permanent error
(`failed to execute operation: <err>` via `%w`), or the distinct
exhaustion error (`failed to execute operation after <n> retries`, which
wraps nothing). -/
inductive WriteResult where
  | ok : WriteResult
  | permanentFailure : List Char → WriteResult
  | exhaustedRetries : ℕ → WriteResult
deriving Repr, DecidableEq

/-- Observable trace of one `executeWithRetry` call: how many times the
operation ran, which backoff sleeps (in milliseconds) happened, and the
returned result. -/
structure RetryTrace where
  calls : ℕ
  sleepsMs : List ℕ
  result : WriteResult
deriving Repr, DecidableEq

/-- The loop body of `executeWithRetry`, with the operation's outcome on
its `n`-th call (0-based) given by `op n` (`none` = success, `some err` =
failure). `fuel` is `maxRetries + 1 - attempt`, making the `for attempt :=
0..maxRetries` loop structural. On a retryable error before the last
attempt the code sleeps `10 * 2 ^ attempt` ms and retries. -/
def retryGo (op : ℕ → Option (List Char)) (maxRetries : ℕ) : ℕ → ℕ → RetryTrace
  | _, 0 => ⟨0, [], .exhaustedRetries maxRetries⟩
  | attempt, fuel + 1 =>
    match op attempt with
    | none => ⟨1, [], .ok⟩
    | some err =>
      if isRetryableError err then
        if attempt < maxRetries then
          let rest := retryGo op maxRetries (attempt + 1) fuel
          ⟨rest.calls + 1, 10 * 2 ^ attempt :: rest.sleepsMs, rest.result⟩
        else
          ⟨1, [], .exhaustedRetries maxRetries⟩
      else
        ⟨1, [], .permanentFailure err⟩

/-- `executeWithRetry`: `maxRetries := 3`, attempts 0 through 3. -/
def executeWithRetry (op : ℕ → Option (List Char)) : RetryTrace :=
  retryGo op 3 0 4

/-- C4: an operation failing with a transient (retryable) error on every
attempt is called exactly `maxRetries + 1 = 4` times, with backoff sleeps
of 10, 20 and 40 ms between consecutive attempts, and the writer returns
the exhausted-retries error, which is distinct from every plain permanent
failure. -/
theorem retry_exhaustion (op : ℕ → Option (List Char))
    (h : ∀ n, n < 4 → ∃ err, op n = some err ∧ isRetryableError err = true) :
    executeWithRetry op = ⟨4, [10, 20, 40], .exhaustedRetries 3⟩ ∧
    ∀ err, WriteResult.exhaustedRetries 3 ≠ WriteResult.permanentFailure err := by
  obtain ⟨e0, he0, hr0⟩ := h 0 (by norm_num)
  obtain ⟨e1, he1, hr1⟩ := h 1 (by norm_num)
  obtain ⟨e2, he2, hr2⟩ := h 2 (by norm_num)
  obtain ⟨e3, he3, hr3⟩ := h 3 (by norm_num)
  constructor
  · simp [executeWithRetry, retryGo, he0, hr0, he1, hr1, he2, hr2, he3, hr3]
  · intro err hcon
    exact WriteResult.noConfusion hcon

/-- Witness for C4: the operation always fails with `database is locked`. -/
theorem retry_exhaustion_witness :
    executeWithRetry (fun _ => some sigDatabaseLocked)
      = ⟨4, [10, 20, 40], .exhaustedRetries 3⟩ :=
  (retry_exhaustion (fun _ => some sigDatabaseLocked)
    (fun n hn => ⟨sigDatabaseLocked, rfl, by decide⟩)).1

/-- An error matching none of the claim's transient signatures (`database
is locked`, `table is locked`, a busy-status code) is not retryable for the
code either: the code's second signature `database table is locked`
contains `table is locked`, so missing the latter implies missing the
former. -/
theorem not_claim_sigs_not_retryable (err : List Char)
    (h1 : ¬ sigDatabaseLocked <:+: err)
    (h2 : ¬ "table is locked".toList <:+: err)
    (h3 : ¬ sigBusy <:+: err) :
    isRetryableError err = false := by
  have h2x : ¬ sigDatabaseTableLocked <:+: err := fun hcon =>
    h2 (List.IsInfix.trans (by decide) hcon)
  unfold isRetryableError goStrContains
  simp [h1, h2x, h3]

/-- C5: an operation whose first failure matches none of the transient
contention signatures is called exactly once; the writer returns the
(wrapped) error immediately, with no retry and no backoff sleep. -/
theorem no_retry_on_permanent (op : ℕ → Option (List Char)) (err : List Char)
    (h0 : op 0 = some err)
    (h1 : ¬ sigDatabaseLocked <:+: err)
    (h2 : ¬ "table is locked".toList <:+: err)
    (h3 : ¬ sigBusy <:+: err) :
    executeWithRetry op = ⟨1, [], .permanentFailure err⟩ := by
  have hret := not_claim_sigs_not_retryable err h1 h2 h3
  simp [executeWithRetry, retryGo, h0, hret]

/-- Witness for C5: a permanent `disk I/O error` is returned after one
call, no sleeps. -/
theorem no_retry_on_permanent_witness :
    executeWithRetry (fun _ => some "disk I/O error".toList)
      = ⟨1, [], .permanentFailure "disk I/O error".toList⟩ :=
  no_retry_on_permanent (fun _ => some "disk I/O error".toList) "disk I/O error".toList
    rfl (by decide) (by decide) (by decide)

/-! ### Input sanitization (`sanitizeInput`, `LogRequest`) -/

/-- UTF-8 encoding of one unicode scalar value, as Go strings store
runes. -/
def utf8EncodeChar (c : ℕ) : List ℕ :=
  if c < 0x80 then [c]
  else if c < 0x800 then [0xC0 + c / 64, 0x80 + c % 64]
  else if c < 0x10000 then [0xE0 + c / 4096, 0x80 + c / 64 % 64, 0x80 + c % 64]
  else [0xF0 + c / 262144, 0x80 + c / 4096 % 64, 0x80 + c / 64 % 64, 0x80 + c % 64]

/-- Byte sequence of a rune sequence (`len` of a Go string counts these
bytes). -/
def utf8Encode (rs : List ℕ) : List ℕ :=
  match rs with
  | [] => []
  | c :: rest => utf8EncodeChar c ++ utf8Encode rest

/-- The rune filter inside `sanitizeInput`'s `strings.Map`: drop code
points below 0x20 and the DEL character 0x7F. -/
def stripControl (input : List ℕ) : List ℕ :=
  input.filter (fun r => !(decide (r < 0x20) || decide (r = 0x7F)))

/-- `sanitizeInput(input, maxLen)`: strip control runes, then truncate the
resulting byte string with `sanitized[:maxLen]` when `len(sanitized) >
maxLen` (a byte slice, which may split a multi-byte rune). The input is
the rune sequence of a valid-UTF-8 Go string; the output is a byte
sequence. -/
def sanitizeInput (input : List ℕ) (maxLen : ℕ) : List ℕ :=
  let sanitized := utf8Encode (stripControl input)
  if maxLen < sanitized.length then sanitized.take maxLen else sanitized

/-- The free-text fields `LogRequest` persists, after its unconditional
sanitization: the address field at maximum 45 and the URL field at maximum
2048. -/
structure SanitizedLogRecord where
  ipAddress : List ℕ
  url : List ℕ
deriving Repr, DecidableEq

/-- The sanitization `LogRequest(ipAddress, url)` performs before the
insert. -/
def logRequestFields (ipAddress url : List ℕ) : SanitizedLogRecord :=
  ⟨sanitizeInput ipAddress 45, sanitizeInput url 2048⟩

/-- A UTF-8 continuation byte. -/
def isUtf8Cont (b : ℕ) : Bool := decide (0x80 ≤ b) && decide (b < 0xC0)

/-- Structural UTF-8 validity of a byte sequence. -/
def validUtf8 : List ℕ → Bool
  | [] => true
  | b :: rest =>
    if b < 0x80 then validUtf8 rest
    else if b < 0xC2 then false
    else if b < 0xE0 then
      match rest with
      | c1 :: rest2 => isUtf8Cont c1 && validUtf8 rest2
      | [] => false
    else if b < 0xF0 then
      match rest with
      | c1 :: c2 :: rest3 => isUtf8Cont c1 && isUtf8Cont c2 && validUtf8 rest3
      | _ => false
    else if b < 0xF5 then
      match rest with
      | c1 :: c2 :: c3 :: rest4 =>
          isUtf8Cont c1 && isUtf8Cont c2 && isUtf8Cont c3 && validUtf8 rest4
      | _ => false
    else false

/-- C6: `LogRequest` sanitizes both free-text fields unconditionally —
the concrete input `/test\n\r\x00path` (runes 47, 116, 101, 115, 116, 10,
13, 0, 112, 97, 116, 104) persists as `/testpath` in either field, empty
input persists as empty, and any input whose control-stripped form exceeds
the field maximum (45 for the address, 2048 for the URL) is truncated to
exactly that maximum length. -/
theorem logRequest_sanitizes_unconditionally :
    logRequestFields [47, 116, 101, 115, 116, 10, 13, 0, 112, 97, 116, 104]
        [47, 116, 101, 115, 116, 10, 13, 0, 112, 97, 116, 104]
      = ⟨[47, 116, 101, 115, 116, 112, 97, 116, 104],
         [47, 116, 101, 115, 116, 112, 97, 116, 104]⟩ ∧
    logRequestFields [] [] = ⟨[], []⟩ ∧
    (∀ ip url, 45 < (utf8Encode (stripControl ip)).length →
      (logRequestFields ip url).ipAddress.length = 45) ∧
    (∀ ip url, 2048 < (utf8Encode (stripControl url)).length →
      (logRequestFields ip url).url.length = 2048) := by
  refine ⟨by decide, by decide, ?_, ?_⟩
  · intro ip url h
    simp only [logRequestFields, sanitizeInput, if_pos h]
    rw [List.length_take]
    exact Nat.min_eq_left (le_of_lt h)
  · intro ip url h
    simp only [logRequestFields, sanitizeInput, if_pos h]
    rw [List.length_take]
    exact Nat.min_eq_left (le_of_lt h)

/-- Stripping is the identity on rune sequences free of control
characters. -/
theorem stripControl_keeps (rs : List ℕ) (h : ∀ c ∈ rs, 0x20 ≤ c ∧ c ≠ 0x7F) :
    stripControl rs = rs := by
  unfold stripControl
  apply List.filter_eq_self.mpr
  intro a ha
  obtain ⟨h1, h2⟩ := h a ha
  simp [not_lt.mpr h1, h2]

/-- ASCII runes encode to one byte each. -/
theorem utf8Encode_length_ascii (rs : List ℕ) (h : ∀ c ∈ rs, c < 0x80) :
    (utf8Encode rs).length = rs.length := by
  induction rs with
  | nil => rfl
  | cons c rest ih =>
      have hc := h c (List.mem_cons_self c rest)
      have hrest := ih (fun x hx => h x (List.mem_cons_of_mem c hx))
      simp [utf8Encode, utf8EncodeChar, if_pos hc, hrest]

/-- Byte length of the control-stripped form of `n` copies of an ASCII
printable rune is `n`. -/
theorem stripped_replicate_length (n c : ℕ) (h1 : 0x20 ≤ c) (h2 : c < 0x7F) :
    (utf8Encode (stripControl (List.replicate n c))).length = n := by
  have hk : stripControl (List.replicate n c) = List.replicate n c := by
    apply stripControl_keeps
    intro x hx
    rw [List.eq_of_mem_replicate hx]
    exact ⟨h1, by omega⟩
  rw [hk, utf8Encode_length_ascii _ (fun x hx => by rw [List.eq_of_mem_replicate hx]; omega),
      List.length_replicate]

/-- Witness for C6 truncation: 46 `A` runes in the address field and 2049
`B` runes in the URL field come out at exactly 45 and 2048 bytes. -/
theorem logRequest_sanitizes_unconditionally_witness :
    (logRequestFields (List.replicate 46 65) (List.replicate 2049 66)).ipAddress.length = 45 ∧
    (logRequestFields (List.replicate 46 65) (List.replicate 2049 66)).url.length = 2048 :=
  ⟨logRequest_sanitizes_unconditionally.2.2.1 (List.replicate 46 65)
      (List.replicate 2049 66)
      (by rw [stripped_replicate_length 46 65 (by norm_num) (by norm_num)]; norm_num),
   logRequest_sanitizes_unconditionally.2.2.2 (List.replicate 46 65)
      (List.replicate 2049 66)
      (by rw [stripped_replicate_length 2049 66 (by norm_num) (by norm_num)]; norm_num)⟩

/-- C10: sanitization truncates by bytes, not characters — when the
control-stripped form exceeds `maxLen` bytes the result is exactly its
first `maxLen` bytes, and at or under `maxLen` bytes it is returned
unchanged; on the concrete input of two `é` runes (U+00E9, two UTF-8 bytes
each) with `maxLen = 3` the cut splits the second rune, leaving the
byte string `C3 A9 C3`, which is not valid UTF-8 although the untruncated
form is. -/
theorem sanitize_truncates_by_bytes :
    (∀ input maxLen, maxLen < (utf8Encode (stripControl input)).length →
      sanitizeInput input maxLen = (utf8Encode (stripControl input)).take maxLen) ∧
    (∀ input maxLen, (utf8Encode (stripControl input)).length ≤ maxLen →
      sanitizeInput input maxLen = utf8Encode (stripControl input)) ∧
    (sanitizeInput [233, 233] 3 = [195, 169, 195] ∧
     validUtf8 (sanitizeInput [233, 233] 3) = false ∧
     validUtf8 (utf8Encode (stripControl [233, 233])) = true) := by
  refine ⟨?_, ?_, by decide, by decide, by decide⟩
  · intro input maxLen h
    simp only [sanitizeInput, if_pos h]
  · intro input maxLen h
    simp only [sanitizeInput, if_neg (not_lt.mpr h)]

/-- Witness for C10 at a concrete over-long input: four `é` runes cut at 5
bytes, and a short input returned whole. -/
theorem sanitize_truncates_by_bytes_witness :
    sanitizeInput [233, 233, 233, 233] 5
      = (utf8Encode (stripControl [233, 233, 233, 233])).take 5 ∧
    sanitizeInput [233, 233, 233, 233] 8 = utf8Encode (stripControl [233, 233, 233, 233]) :=
  ⟨sanitize_truncates_by_bytes.1 [233, 233, 233, 233] 5 (by decide),
   sanitize_truncates_by_bytes.2.1 [233, 233, 233, 233] 8 (by decide)⟩
